import Mathlib

/-!
Verification of the Scanium taxonomy mapping engine
(`scripts/ebay/flatten_taxonomy.py` and `scripts/ebay/map_to_scanium.py`)
against its natural-language specification.

Strings are modelled as `List Char`; Python `str.lower` is modelled over the
ASCII range (`Char.toLower`), and the regex class `[\s\-_]` of
`re.split(r'[\s\-_]+', ...)` is modelled by `isSep` over the ASCII whitespace
characters plus hyphen and underscore.  Python dicts keyed by strings are
modelled as association lists in insertion order.  All functions are total and
computable, mirroring the fact that the Python core never raises on the data
shapes modelled here.
-/

set_option maxRecDepth 10000

namespace Scanium

/-- Strings are lists of characters. -/
abbrev Str := List Char

/-- Shorthand turning a Lean string literal into the `Str` model. -/
def w (s : String) : Str := s.toList

/-- ASCII whitespace characters matched by Python's regex class `\s`. -/
def isWS (c : Char) : Bool :=
  c = ' ' || c = '\t' || c = '\n' || c = '\x0b' || c = '\x0c' || c = '\r'

/-- Characters of the regex class `[\s\-_]` used by `tokenize`. -/
def isSep (c : Char) : Bool := isWS c || c = '-' || c = '_'

/-- Model of Python `str.lower` (ASCII). -/
def lowerStr (s : Str) : Str := s.map Char.toLower

/-- Model of `re.split(r'[\s\-_]+', s)`: split at maximal runs of separator
characters, keeping the (possibly empty) fragments between runs.  The boolean
argument records whether the scan is inside a separator run, so that a run of
several separators produces a single split point, exactly as the `+` in the
regex does. -/
def reSplitAux : Str → Bool → Str → List Str
  | [], _, cur => [cur.reverse]
  | c :: cs, inRun, cur =>
    if isSep c then
      if inRun then reSplitAux cs true cur
      else cur.reverse :: reSplitAux cs true []
    else reSplitAux cs false (c :: cur)

/-- Model of `re.split(r'[\s\-_]+', s)` on a whole string. -/
def reSplit (s : Str) : List Str := reSplitAux s false []

/-- Model of `tokenize` from `map_to_scanium.py`:
`tokens = re.split(r'[\s\-_]+', text.lower())`, then
`[t for t in tokens if t]` (Python truthiness keeps nonempty fragments). -/
def tokenize (text : Str) : List Str :=
  (reSplit (lowerStr text)).filter (fun t => !t.isEmpty)

/-- Modelled from the spec (§4.1), for comparison with `tokenize`: collect the
maximal runs of non-separator characters of the input, in their original
order; empty fragments never arise, and an all-separator input produces
nothing.  The accumulator holds the (reversed) current run. -/
def specTokensAux : Str → Str → List Str
  | [], cur => if cur.isEmpty then [] else [cur.reverse]
  | c :: cs, cur =>
    if isSep c then
      if cur.isEmpty then specTokensAux cs []
      else cur.reverse :: specTokensAux cs []
    else specTokensAux cs (c :: cur)

/-- Modelled from the spec (§4.1): the token sequence described by the spec,
before lower-casing is taken into account. -/
def specTokens (s : Str) : List Str := specTokensAux s []

theorem reSplitAux_filter (cs : Str) : ∀ (b : Bool) (cur : Str),
    (b = true → cur = []) →
    (reSplitAux cs b cur).filter (fun t => !t.isEmpty) = specTokensAux cs cur := by
  induction cs with
  | nil =>
    intro b cur _
    cases cur with
    | nil => simp [reSplitAux, specTokensAux]
    | cons c cur' => simp [reSplitAux, specTokensAux]
  | cons c cs ih =>
    intro b cur hb
    by_cases hsep : isSep c = true
    · cases b with
      | true =>
        have hcur : cur = [] := hb rfl
        subst hcur
        rw [show reSplitAux (c :: cs) true [] = reSplitAux cs true [] from by
              simp [reSplitAux, hsep]]
        rw [show specTokensAux (c :: cs) [] = specTokensAux cs [] from by
              simp [specTokensAux, hsep]]
        exact ih true [] (fun _ => rfl)
      | false =>
        rw [show reSplitAux (c :: cs) false cur
              = cur.reverse :: reSplitAux cs true [] from by
              simp [reSplitAux, hsep]]
        cases cur with
        | nil =>
          rw [show specTokensAux (c :: cs) [] = specTokensAux cs [] from by
                simp [specTokensAux, hsep]]
          simpa using ih true [] (fun _ => rfl)
        | cons d cur' =>
          rw [show specTokensAux (c :: cs) (d :: cur')
                = (d :: cur').reverse :: specTokensAux cs [] from by
                simp [specTokensAux, hsep]]
          have h1 : ((d :: cur').reverse).isEmpty = false := by simp
          simp only [List.filter_cons, h1, Bool.not_false, if_true]
          rw [ih true [] (fun _ => rfl)]
    · have hsep' : isSep c = false := by simpa using hsep
      rw [show reSplitAux (c :: cs) b cur = reSplitAux cs false (c :: cur) from by
            simp [reSplitAux, hsep']]
      rw [show specTokensAux (c :: cs) cur = specTokensAux cs (c :: cur) from by
            simp [specTokensAux, hsep']]
      exact ih false (c :: cur) (by simp)

theorem tokenize_eq_specTokens (s : Str) : tokenize s = specTokens (lowerStr s) :=
  reSplitAux_filter (lowerStr s) false [] (by simp)

theorem toLower_of_isWS (c : Char) : isWS c = true → c.toLower = c := by
  intro h
  simp only [isWS, Bool.or_eq_true, decide_eq_true_eq] at h
  rcases h with ((((h | h) | h) | h) | h) | h <;> subst h <;> decide

theorem lowerStr_allSep_of_allWS (s : Str) :
    s.all isWS = true → (lowerStr s).all isSep = true := by
  intro h
  simp only [List.all_eq_true] at h ⊢
  intro c hc
  simp only [lowerStr, List.mem_map] at hc
  obtain ⟨d, hd, rfl⟩ := hc
  rw [toLower_of_isWS d (h d hd)]
  simp [isSep, h d hd]

theorem specTokensAux_allSep (cs : Str) :
    cs.all isSep = true → specTokensAux cs [] = [] := by
  induction cs with
  | nil => intro _; simp [specTokensAux]
  | cons c cs ih =>
    intro h
    simp only [List.all_cons, Bool.and_eq_true] at h
    simp only [specTokensAux, h.1, if_pos rfl, List.isEmpty_nil, if_true]
    exact ih h.2

theorem tokenize_blank (s : Str) : s.all isWS = true → tokenize s = [] := by
  intro h
  rw [tokenize_eq_specTokens]
  exact specTokensAux_allSep _ (lowerStr_allSep_of_allWS s h)

theorem specTokensAux_tokens_ok (cs : Str) : ∀ (cur : Str),
    cur.all (fun c => !isSep c) = true →
    ∀ t ∈ specTokensAux cs cur, t ≠ [] ∧ t.all (fun c => !isSep c) = true := by
  induction cs with
  | nil =>
    intro cur hcur t ht
    cases hc : cur.isEmpty with
    | true =>
      rw [show specTokensAux [] cur = [] from by simp [specTokensAux, hc]] at ht
      simp at ht
    | false =>
      rw [show specTokensAux [] cur = [cur.reverse] from by
            simp [specTokensAux, hc]] at ht
      have ht' := List.mem_singleton.mp ht
      subst ht'
      exact ⟨by simpa [List.isEmpty_iff] using hc, by simpa using hcur⟩
  | cons c cs ih =>
    intro cur hcur t ht
    by_cases hsep : isSep c = true
    · cases hc : cur.isEmpty with
      | true =>
        rw [show specTokensAux (c :: cs) cur = specTokensAux cs [] from by
              simp [specTokensAux, hsep, hc]] at ht
        exact ih [] (by simp) t ht
      | false =>
        rw [show specTokensAux (c :: cs) cur = cur.reverse :: specTokensAux cs [] from by
              simp [specTokensAux, hsep, hc]] at ht
        rcases List.mem_cons.mp ht with rfl | ht'
        · refine ⟨by simpa [List.isEmpty_iff] using hc, by simpa using hcur⟩
        · exact ih [] (by simp) t ht'
    · rw [show specTokensAux (c :: cs) cur = specTokensAux cs (c :: cur) from by
            simp [specTokensAux, hsep]] at ht
      exact ih (c :: cur) (by simp [hcur, hsep]) t ht

theorem tokenize_tokens_ok (s : Str) :
    ∀ t ∈ tokenize s, t ≠ [] ∧ t.all (fun c => !isSep c) = true := by
  rw [tokenize_eq_specTokens]
  exact specTokensAux_tokens_ok (lowerStr s) [] (by simp)

/-- Model of the `SYNONYMS` table of `map_to_scanium.py`, in declaration
order: canonical term paired with its list of alternate terms. -/
def SYNONYMS : List (Str × List Str) := [
  (w "laptop", [w "notebook", w "computer", w "macbook", w "chromebook"]),
  (w "monitor", [w "display", w "screen", w "lcd"]),
  (w "television", [w "tv", w "telly", w "screen"]),
  (w "smartphone", [w "phone", w "mobile", w "iphone", w "android"]),
  (w "tablet", [w "ipad", w "pad"]),
  (w "headphones", [w "earbuds", w "earphones", w "headset", w "airpods"]),
  (w "speaker", [w "bluetooth speaker", w "audio"]),
  (w "camera", [w "dslr", w "mirrorless", w "camcorder"]),
  (w "printer", [w "inkjet", w "laser"]),
  (w "router", [w "wifi", w "wireless"]),
  (w "smartwatch", [w "watch", w "wearable"]),
  (w "game console", [w "gaming", w "playstation", w "xbox", w "switch"]),
  (w "sofa", [w "couch", w "settee", w "lounge"]),
  (w "chair", [w "seat", w "seating"]),
  (w "table", [w "desk", w "dining"]),
  (w "microwave", [w "oven", w "microwave oven"]),
  (w "vacuum", [w "vacuum cleaner", w "hoover"]),
  (w "coffee machine", [w "coffee maker", w "espresso"]),
  (w "drill", [w "power drill"]),
  (w "saw", [w "circular saw", w "jigsaw"]),
  (w "lawn mower", [w "mower", w "grass"]),
  (w "blender", [w "mixer", w "food processor"]),
  (w "gaming laptop", [w "gaming pc", w "gaming computer"]),
  (w "gaming desktop", [w "gaming pc", w "gaming tower"]),
  (w "mechanical keyboard", [w "gaming keyboard", w "keyboard"])]

/-- Lookup in an association list, first matching key wins; this is the model
of Python dict lookup for dicts represented in insertion order. -/
def alookup : List (Str × Str) → Str → Option Str
  | [], _ => none
  | (k, v) :: m, s => if k = s then some v else alookup m s

/-- Model of `if syn not in REVERSE_SYNONYMS: REVERSE_SYNONYMS[syn] = primary`:
insert at the end only when the key is absent. -/
def dictInsertAbsent (m : List (Str × Str)) (k v : Str) : List (Str × Str) :=
  if (alookup m k).isSome then m else m ++ [(k, v)]

/-- Model of the `REVERSE_SYNONYMS` construction loop of `map_to_scanium.py`. -/
def REVERSE_SYNONYMS : List (Str × Str) :=
  SYNONYMS.foldl (fun m ps => ps.2.foldl (fun m s => dictInsertAbsent m s ps.1) m) []

/-- All (alternate, canonical) pairs of the synonym table, flattened in
declaration order. -/
def flatSynPairs : List (Str × Str) :=
  SYNONYMS.flatMap (fun ps => ps.2.map (fun s => (s, ps.1)))

/-- First of two optional values, mirroring which lookup result wins. -/
def firstOf (o p : Option Str) : Option Str :=
  match o with
  | some v => some v
  | none => p

theorem alookup_append (m m' : List (Str × Str)) (k : Str) :
    alookup (m ++ m') k = firstOf (alookup m k) (alookup m' k) := by
  induction m with
  | nil => simp [alookup, firstOf]
  | cons p m ih =>
    by_cases hk : p.1 = k
    · simp [alookup, hk, firstOf]
    · simp [alookup, hk, ih]

theorem alookup_foldl_insert (pairs : List (Str × Str)) :
    ∀ (m : List (Str × Str)) (k : Str),
    alookup (pairs.foldl (fun m p => dictInsertAbsent m p.1 p.2) m) k
      = firstOf (alookup m k) (alookup pairs k) := by
  induction pairs with
  | nil => intro m k; cases h : alookup m k <;> simp [alookup, firstOf, h]
  | cons p rest ih =>
    intro m k
    simp only [List.foldl_cons]
    rw [ih]
    by_cases hins : (alookup m p.1).isSome
    · rw [show dictInsertAbsent m p.1 p.2 = m from by simp [dictInsertAbsent, hins]]
      by_cases hk : p.1 = k
      · subst hk
        obtain ⟨v, hv⟩ := Option.isSome_iff_exists.mp hins
        simp [alookup, firstOf, hv]
      · simp [alookup, hk]
    · rw [show dictInsertAbsent m p.1 p.2 = m ++ [(p.1, p.2)] from by
            simp [dictInsertAbsent, hins]]
      rw [alookup_append]
      have hm : alookup m p.1 = none := by
        cases h : alookup m p.1
        · rfl
        · exact absurd (by simp [h]) hins
      by_cases hk : p.1 = k
      · subst hk
        simp [alookup, firstOf, hm]
      · simp only [alookup, if_neg hk]
        cases h : alookup m k <;> simp [firstOf, h, alookup, hk]

theorem nested_fold_eq_flat (table : List (Str × List Str)) :
    ∀ (m : List (Str × Str)),
    table.foldl (fun m ps => ps.2.foldl (fun m s => dictInsertAbsent m s ps.1) m) m
      = (table.flatMap (fun ps => ps.2.map (fun s => (s, ps.1)))).foldl
          (fun m p => dictInsertAbsent m p.1 p.2) m := by
  induction table with
  | nil => intro m; simp
  | cons ps rest ih =>
    intro m
    simp only [List.foldl_cons, List.flatMap_cons, List.foldl_append, List.foldl_map]
    rw [ih]

theorem reverse_synonyms_lookup (s : Str) :
    alookup REVERSE_SYNONYMS s = alookup flatSynPairs s := by
  rw [REVERSE_SYNONYMS, nested_fold_eq_flat SYNONYMS []]
  rw [show (SYNONYMS.flatMap (fun ps => ps.2.map (fun s => (s, ps.1)))) = flatSynPairs
        from rfl]
  rw [alookup_foldl_insert]
  rfl

/-- Confidence tiers `CONFIDENCE_HIGH / _MEDIUM / _LOW` of `map_to_scanium.py`. -/
inductive Conf where
  | high
  | medium
  | low
deriving DecidableEq, Repr

/-- Reason strings returned by `match_confidence`, modelled structurally: each
constructor carries exactly the data interpolated into the Python f-string. -/
inductive Reason where
  | exact
  | direct (tok : Str)
  | syn (tok primary : Str)
  | bigram (two : Str)
  | weak (matched total : Nat)
deriving DecidableEq, Repr

/-- Model of the first `for ebay_token in ebay_tokens` loop of
`match_confidence`: for each token in order, first the direct-token test
(membership in the display-name tokens or id tokens), then the synonym test
(reverse-synonym lookup followed by a substring test against the lowered
subtype id); the first token that fires either test decides. -/
def rulesLoop (nameToks idToks : List Str) (scanium_id : Str) : List Str → Option (Conf × Reason)
  | [] => none
  | t :: ts =>
    if t ∈ nameToks ∨ t ∈ idToks then some (Conf.high, Reason.direct t)
    else
      match alookup REVERSE_SYNONYMS t with
      | some primary =>
        if primary <:+: lowerStr scanium_id then some (Conf.medium, Reason.syn t primary)
        else rulesLoop nameToks idToks scanium_id ts
      | none => rulesLoop nameToks idToks scanium_id ts

/-- Model of the `for i in range(len(ebay_tokens) - 1)` loop of
`match_confidence`: each adjacent token pair, rejoined with one space, is
tested as a substring of the lowered display name or lowered id. -/
def bigramLoop (scanium_name scanium_id : Str) : List Str → Option (Conf × Reason)
  | t1 :: t2 :: ts =>
    let two := t1 ++ ' ' :: t2
    if two <:+: lowerStr scanium_name ∨ two <:+: lowerStr scanium_id then
      some (Conf.medium, Reason.bigram two)
    else bigramLoop scanium_name scanium_id (t2 :: ts)
  | _ => none

/-- Python `scanium_id.replace("_", " ")`. -/
def underscoreToSpace (s : Str) : Str := s.map (fun c => if c = '_' then ' ' else c)

/-- Model of `match_confidence(ebay_name, scanium_id, scanium_name)`:
`none` models the `(False, "", "")` return, `some (c, r)` a
`(True, confidence, reason)` return. -/
def match_confidence (ebay_name scanium_id scanium_name : Str) : Option (Conf × Reason) :=
  let ebay_tokens := tokenize ebay_name
  let scanium_tokens := tokenize scanium_name
  let scanium_tokens_from_id := tokenize (underscoreToSpace scanium_id)
  if lowerStr ebay_name = lowerStr scanium_name then some (Conf.high, Reason.exact)
  else
    match rulesLoop scanium_tokens scanium_tokens_from_id scanium_id ebay_tokens with
    | some r => some r
    | none =>
      match bigramLoop scanium_name scanium_id ebay_tokens with
      | some r => some r
      | none =>
        let matching_tokens := ebay_tokens.countP
          (fun t => decide (t ∈ scanium_tokens ∨ t ∈ scanium_tokens_from_id))
        if 1 ≤ matching_tokens ∧ ebay_tokens.length ≤ 3 then
          some (Conf.low, Reason.weak matching_tokens ebay_tokens.length)
        else none

/-- Scanium subtype reference entry; only the two fields consulted by the
matching logic (`s["id"]`, `s["displayName"]`) are modelled, the remaining
fields of `scanium_subtypes_all.json` are passthrough data. -/
structure SSubtype where
  id : Str
  displayName : Str
deriving DecidableEq, Repr

/-- Model of the body of the `for scanium_subtype in scanium_subtypes` loop of
`map_categories`: `best_match`/`best_confidence` (always set together) are one
optional pair, replaced when `best_match is None` or when the new confidence
is HIGH and the current best is LOW. -/
def stepBest (ebay_name : Str) (best : Option (SSubtype × Conf)) (st : SSubtype) :
    Option (SSubtype × Conf) :=
  match match_confidence ebay_name st.id st.displayName with
  | none => best
  | some (c, _) =>
    match best with
    | none => some (st, c)
    | some (b, bc) => if c = Conf.high ∧ bc = Conf.low then some (st, c) else some (b, bc)

/-- The best candidate for one category after scanning every subtype in order. -/
def pickBest (ebay_name : Str) (subtypes : List SSubtype) : Option (SSubtype × Conf) :=
  subtypes.foldl (stepBest ebay_name) none

/-- Flat category record produced by `flatten_category_tree`: the rich
traversal emits a `level` value, the legacy traversal emits no `level` key
(`none` here). -/
structure FlatEntry where
  ebayCategoryId : Option Str
  name : Str
  path : List Str
  parentId : Option Str
  leafFlag : Bool
  level : Option Nat
deriving DecidableEq, Repr

/-- One element of the `mappings` output list of `map_categories`. -/
structure MappingRecord where
  ebayCategoryId : Option Str
  ebayName : Str
  ebayPath : List Str
  scaniumSubtypeId : Str
  scaniumDisplayName : Str
  confidence : Conf
deriving DecidableEq, Repr

/-- One element of the `unmapped` output list of `map_categories`. -/
structure UnmappedRecord where
  ebayCategoryId : Option Str
  ebayName : Str
  ebayPath : List Str
deriving DecidableEq, Repr

/-- Model of the mapping pass of `map_categories`: for each category in order,
scan every subtype and append a mapping record when a best match exists,
otherwise an unmapped record.  File-system and JSON I/O of the surrounding
layer are outside this core. -/
def map_categories_core (cats : List FlatEntry) (subtypes : List SSubtype) :
    List MappingRecord × List UnmappedRecord :=
  match cats with
  | [] => ([], [])
  | c :: cs =>
    match pickBest c.name subtypes with
    | some (st, conf) =>
      (⟨c.ebayCategoryId, c.name, c.path, st.id, st.displayName, conf⟩
         :: (map_categories_core cs subtypes).1,
       (map_categories_core cs subtypes).2)
    | none =>
      ((map_categories_core cs subtypes).1,
       ⟨c.ebayCategoryId, c.name, c.path⟩ :: (map_categories_core cs subtypes).2)

/-- Rich ("real eBay API") tree node shape consumed by `traverse_node`:
`node["category"]` may lack `categoryId` (then `None`) and `categoryName`
(then `""`); `childCategoryTreeNodes` defaults to `[]`;
`leafCategoryTreeNode` is absent or a boolean; `categoryTreeNodeLevel` is
absent or a number.  A missing `category` dict is the node with `none` id and
empty name. -/
inductive RichNode where
  | mk (catId : Option Str) (catName : Str) (leafFlag : Option Bool)
       (level : Option Nat) (children : List RichNode)

/-- Legacy ("mock data") tree node shape consumed by `traverse_old`:
`categoryId`, `categoryName` (default `""`), `parentCategoryId`, and nested
`subcategories`. -/
inductive LegacyCat where
  | mk (catId : Option Str) (catName : Str) (parentCategoryId : Option Str)
       (subcategories : List LegacyCat)

mutual

/-- Model of `traverse_node` from `flatten_taxonomy.py`: skip a node whose id
is the sentinel `"0"` and restart its children from the empty path, otherwise
emit the node and recurse into its children with the extended path. -/
def traverse_node : RichNode → List Str → Option Str → List FlatEntry
  | RichNode.mk catId catName leafFlag level children, path, parentId =>
    if catId = some (w "0") then
      traverse_forest children [] catId
    else
      let current_path := if catName ≠ [] then path ++ [catName] else path
      let is_leaf := leafFlag.getD false || children.isEmpty
      { ebayCategoryId := catId, name := catName, path := current_path,
        parentId := parentId, leafFlag := is_leaf,
        level := some (level.getD current_path.length) }
        :: traverse_forest children current_path catId

/-- The `for child_node in ...: traverse_node(child_node, ...)` loop, with the
shared `flat_categories.append` accumulator modelled by list concatenation in
visit order. -/
def traverse_forest : List RichNode → List Str → Option Str → List FlatEntry
  | [], _, _ => []
  | c :: cs, path, parentId =>
    traverse_node c path parentId ++ traverse_forest cs path parentId

end

mutual

/-- Model of `traverse_old` from `flatten_taxonomy.py` (legacy shape): every
node is emitted, with no sentinel check, no `level` field, and `parentId`
taken from the node's own `parentCategoryId`. -/
def traverse_old : LegacyCat → List Str → List FlatEntry
  | LegacyCat.mk catId catName parentCategoryId subcategories, path =>
    let current_path := if catName ≠ [] then path ++ [catName] else path
    { ebayCategoryId := catId, name := catName, path := current_path,
      parentId := parentCategoryId, leafFlag := subcategories.isEmpty,
      level := none }
      :: traverse_old_forest subcategories current_path

/-- The `for sub_cat in category.get("subcategories", [])` loop. -/
def traverse_old_forest : List LegacyCat → List Str → List FlatEntry
  | [], _ => []
  | c :: cs, path => traverse_old c path ++ traverse_old_forest cs path

end

/-- Input of `flatten_category_tree`, after JSON parsing:
`rootCategoryNode` is `some` when `tree_data["categoryTree"]["rootCategoryNode"]`
is present and truthy, `categoryTreeCategories` models
`tree_data["categoryTree"]["categories"]` (default `[]`), and `categories`
models the top-level `tree_data["categories"]` fallback (default `[]`). -/
structure TreeData where
  rootCategoryNode : Option RichNode
  categoryTreeCategories : List LegacyCat
  categories : List LegacyCat

/-- Model of `flatten_category_tree`: rich traversal from the root when one is
present, otherwise the legacy traversal over whichever category list is
non-empty (`if not categories:` falls through to the top-level list). -/
def flatten_category_tree (t : TreeData) : List FlatEntry :=
  match t.rootCategoryNode with
  | some root => traverse_node root [] none
  | none =>
    let cats := if t.categoryTreeCategories.isEmpty then t.categories
                else t.categoryTreeCategories
    traverse_old_forest cats []

/-- The full pipeline: flatten, then map every flattened category against the
subtype list.  The JSON handoff between the two scripts is a deterministic
serialisation and is not part of the core. -/
def pipeline (t : TreeData) (subtypes : List SSubtype) :
    List MappingRecord × List UnmappedRecord :=
  map_categories_core (flatten_category_tree t) subtypes

mutual

/-- Number of records the rich traversal is expected to emit: every node of
the tree except those carrying the sentinel id `"0"`. -/
def emittedCount : RichNode → Nat
  | RichNode.mk catId _ _ _ children =>
    (if catId = some (w "0") then 0 else 1) + emittedCountF children

/-- Sum of `emittedCount` over a forest. -/
def emittedCountF : List RichNode → Nat
  | [] => 0
  | c :: cs => emittedCount c + emittedCountF cs

end

mutual

/-- Number of records the legacy traversal is expected to emit: every node of
the tree (the legacy traversal has no sentinel skip). -/
def legacyCount : LegacyCat → Nat
  | LegacyCat.mk _ _ _ subs => 1 + legacyCountF subs

/-- Sum of `legacyCount` over a list of legacy categories. -/
def legacyCountF : List LegacyCat → Nat
  | [] => 0
  | c :: cs => legacyCount c + legacyCountF cs

end

/-! Helper lemmas about the scorer loops. -/

theorem rulesLoop_direct_first (nameToks idToks : List Str) (i : Str)
    (ts₁ : List Str) (t : Str) (ts₂ : List Str)
    (ht : t ∈ nameToks ∨ t ∈ idToks)
    (h₁ : ∀ u ∈ ts₁, ¬(u ∈ nameToks ∨ u ∈ idToks) ∧
       ∀ p, alookup REVERSE_SYNONYMS u = some p → ¬(p <:+: lowerStr i)) :
    rulesLoop nameToks idToks i (ts₁ ++ t :: ts₂) = some (Conf.high, Reason.direct t) := by
  induction ts₁ with
  | nil =>
    simp only [List.nil_append, rulesLoop, if_pos ht]
  | cons u rest ih =>
    have hu := h₁ u (by simp)
    simp only [List.cons_append, rulesLoop, if_neg hu.1]
    cases hp : alookup REVERSE_SYNONYMS u with
    | none => exact ih (fun v hv => h₁ v (by simp [hv]))
    | some p =>
      dsimp only
      rw [if_neg (hu.2 p hp)]
      exact ih (fun v hv => h₁ v (by simp [hv]))

theorem match_confidence_of_direct (e i n : Str) (ts₁ : List Str) (t : Str) (ts₂ : List Str)
    (hne : lowerStr e ≠ lowerStr n)
    (htok : tokenize e = ts₁ ++ t :: ts₂)
    (ht : t ∈ tokenize n ∨ t ∈ tokenize (underscoreToSpace i))
    (h₁ : ∀ u ∈ ts₁, ¬(u ∈ tokenize n ∨ u ∈ tokenize (underscoreToSpace i)) ∧
       ∀ p, alookup REVERSE_SYNONYMS u = some p → ¬(p <:+: lowerStr i)) :
    match_confidence e i n = some (Conf.high, Reason.direct t) := by
  unfold match_confidence
  rw [if_neg hne, htok, rulesLoop_direct_first _ _ _ ts₁ t ts₂ ht h₁]

theorem match_confidence_no_tokens (e i n : Str)
    (htok : tokenize e = []) (hne : lowerStr e ≠ lowerStr n) :
    match_confidence e i n = none := by
  unfold match_confidence
  rw [if_neg hne, htok]
  simp [rulesLoop, bigramLoop]

theorem stepBest_keep (ebay_name : Str) (b : SSubtype) (c : Conf)
    (hc : c = Conf.high ∨ c = Conf.medium) (st : SSubtype) :
    stepBest ebay_name (some (b, c)) st = some (b, c) := by
  unfold stepBest
  cases match_confidence ebay_name st.id st.displayName with
  | none => rfl
  | some cr =>
    have : ¬(cr.1 = Conf.high ∧ c = Conf.low) := by
      rcases hc with rfl | rfl <;> simp
    simp [this]

theorem foldl_stepBest_keep (ebay_name : Str) (subs : List SSubtype) (b : SSubtype)
    (c : Conf) (hc : c = Conf.high ∨ c = Conf.medium) :
    subs.foldl (stepBest ebay_name) (some (b, c)) = some (b, c) := by
  induction subs with
  | nil => rfl
  | cons st rest ih => rw [List.foldl_cons, stepBest_keep ebay_name b c hc st]; exact ih

theorem tokenize_nil : tokenize [] = [] := rfl

theorem lowerStr_ne_nil (s : Str) (h : s ≠ []) : lowerStr s ≠ [] := by
  intro hc
  exact h (List.map_eq_nil_iff.mp hc)

theorem pickBest_nil_name (subs : List SSubtype)
    (h : ∀ st ∈ subs, st.displayName ≠ []) :
    pickBest [] subs = none := by
  unfold pickBest
  induction subs with
  | nil => rfl
  | cons st rest ih =>
    rw [List.foldl_cons]
    rw [show stepBest [] none st = none from by
          unfold stepBest
          rw [match_confidence_no_tokens [] st.id st.displayName tokenize_nil
                (fun hc => lowerStr_ne_nil st.displayName (h st (by simp)) hc.symm)]]
    exact ih (fun u hu => h u (by simp [hu]))

/-! Helper lemmas about the aggregator partition. -/

theorem map_core_cons_none (subs : List SSubtype) (c : FlatEntry) (cs : List FlatEntry)
    (hp : pickBest c.name subs = none) :
    map_categories_core (c :: cs) subs
      = ((map_categories_core cs subs).1,
         ⟨c.ebayCategoryId, c.name, c.path⟩ :: (map_categories_core cs subs).2) := by
  conv_lhs => rw [map_categories_core.eq_def]
  dsimp only
  rw [hp]

theorem map_core_cons_some (subs : List SSubtype) (c : FlatEntry) (cs : List FlatEntry)
    (st : SSubtype) (conf : Conf) (hp : pickBest c.name subs = some (st, conf)) :
    map_categories_core (c :: cs) subs
      = (⟨c.ebayCategoryId, c.name, c.path, st.id, st.displayName, conf⟩
           :: (map_categories_core cs subs).1,
         (map_categories_core cs subs).2) := by
  conv_lhs => rw [map_categories_core.eq_def]
  dsimp only
  rw [hp]

theorem map_core_char (subs : List SSubtype) : ∀ (cats : List FlatEntry),
    (map_categories_core cats subs).1.map (fun m => (m.ebayCategoryId, m.ebayName, m.ebayPath))
      = (cats.filter (fun c => (pickBest c.name subs).isSome)).map
          (fun c => (c.ebayCategoryId, c.name, c.path))
    ∧ (map_categories_core cats subs).2
      = (cats.filter (fun c => !(pickBest c.name subs).isSome)).map
          (fun c => ⟨c.ebayCategoryId, c.name, c.path⟩) := by
  intro cats
  induction cats with
  | nil => exact ⟨rfl, rfl⟩
  | cons c cs ih =>
    cases hp : pickBest c.name subs with
    | none =>
      have hf1 : (c :: cs).filter (fun x => (pickBest x.name subs).isSome)
          = cs.filter (fun x => (pickBest x.name subs).isSome) := by
        simp [List.filter_cons, hp]
      have hf2 : (c :: cs).filter (fun x => !(pickBest x.name subs).isSome)
          = c :: cs.filter (fun x => !(pickBest x.name subs).isSome) := by
        simp [List.filter_cons, hp]
      rw [map_core_cons_none subs c cs hp]
      dsimp only
      rw [hf1, hf2, List.map_cons]
      exact ⟨ih.1, congrArg _ ih.2⟩
    | some sc =>
      obtain ⟨st, conf⟩ := sc
      have hf1 : (c :: cs).filter (fun x => (pickBest x.name subs).isSome)
          = c :: cs.filter (fun x => (pickBest x.name subs).isSome) := by
        simp [List.filter_cons, hp]
      have hf2 : (c :: cs).filter (fun x => !(pickBest x.name subs).isSome)
          = cs.filter (fun x => !(pickBest x.name subs).isSome) := by
        simp [List.filter_cons, hp]
      rw [map_core_cons_some subs c cs st conf hp]
      dsimp only
      rw [hf1, hf2, List.map_cons, List.map_cons]
      exact ⟨congrArg _ ih.1, ih.2⟩

theorem map_core_lengths (subs : List SSubtype) : ∀ (cats : List FlatEntry),
    (map_categories_core cats subs).1.length + (map_categories_core cats subs).2.length
      = cats.length := by
  intro cats
  induction cats with
  | nil => rfl
  | cons c cs ih =>
    cases hp : pickBest c.name subs with
    | none =>
      rw [map_core_cons_none subs c cs hp]
      dsimp only
      rw [List.length_cons, List.length_cons]
      omega
    | some sc =>
      obtain ⟨st, conf⟩ := sc
      rw [map_core_cons_some subs c cs st conf hp]
      dsimp only
      rw [List.length_cons, List.length_cons]
      omega

/-! Claim C1: rule 2 versus rule 3 priority in `match_confidence`. -/

/-- C1, counterexample: for external name "notebook laptop" against subtype
id "electronics_laptop" / display name "Laptop", the exact rule does not fire
and the token "laptop" appears verbatim among the id tokens, yet the scorer
returns MEDIUM with a synonym reason (from the earlier token "notebook"), not
HIGH with a direct-token reason — so the direct-token rule does not decide
before the synonym rule on every input. -/
theorem rule_priority_cex :
    lowerStr (w "notebook laptop") ≠ lowerStr (w "Laptop")
    ∧ (w "laptop") ∈ tokenize (underscoreToSpace (w "electronics_laptop"))
    ∧ match_confidence (w "notebook laptop") (w "electronics_laptop") (w "Laptop")
        = some (Conf.medium, Reason.syn (w "notebook") (w "laptop")) := by
  refine ⟨by decide, by decide, by decide⟩

/-- C1, amended: the direct-token and synonym rules are interleaved per token
of the external name, direct checked before synonym for each token.  Hence if
the exact rule does not fire, some token of the external name appears verbatim
among the display-name or id tokens, and no earlier token fires either the
direct-token or the synonym condition, then the scorer returns HIGH with the
direct-token reason for that token. -/
theorem rule_priority_per_token (e i n : Str) (ts₁ : List Str) (t : Str) (ts₂ : List Str)
    (hne : lowerStr e ≠ lowerStr n)
    (htok : tokenize e = ts₁ ++ t :: ts₂)
    (ht : t ∈ tokenize n ∨ t ∈ tokenize (underscoreToSpace i))
    (h₁ : ∀ u ∈ ts₁, ¬(u ∈ tokenize n ∨ u ∈ tokenize (underscoreToSpace i)) ∧
       ∀ p, alookup REVERSE_SYNONYMS u = some p → ¬(p <:+: lowerStr i)) :
    match_confidence e i n = some (Conf.high, Reason.direct t) :=
  match_confidence_of_direct e i n ts₁ t ts₂ hne htok ht h₁

/-- C1, witness: "zzz laptop" against id "electronics_laptop" / name
"Laptop" — the first token fires nothing, the second fires the direct rule. -/
theorem rule_priority_per_token_witness :
    match_confidence (w "zzz laptop") (w "electronics_laptop") (w "Laptop")
      = some (Conf.high, Reason.direct (w "laptop")) :=
  rule_priority_per_token (w "zzz laptop") (w "electronics_laptop") (w "Laptop")
    [w "zzz"] (w "laptop") [] (by decide) (by decide) (by decide) (by decide)

/-! Claim C2: the aggregator's tie-break / upgrade policy. -/

/-- C2: selection policy of the `for scanium_subtype in scanium_subtypes`
loop: a HIGH or MEDIUM current best is never changed by any further subtypes;
the first matching subtype becomes the current best (and a non-matching one
leaves an empty best empty); and the current best changes only when the new
candidate scores HIGH while the current best is LOW, in which case the new
candidate replaces it. -/
theorem aggregator_tiebreak_policy (ebay_name : Str) (subs : List SSubtype) (b : SSubtype) :
    (subs.foldl (stepBest ebay_name) (some (b, Conf.high)) = some (b, Conf.high))
    ∧ (subs.foldl (stepBest ebay_name) (some (b, Conf.medium)) = some (b, Conf.medium))
    ∧ (∀ st c r, match_confidence ebay_name st.id st.displayName = some (c, r) →
         stepBest ebay_name none st = some (st, c))
    ∧ (∀ st, match_confidence ebay_name st.id st.displayName = none →
         stepBest ebay_name none st = none)
    ∧ (∀ st bc, stepBest ebay_name (some (b, bc)) st ≠ some (b, bc) →
         bc = Conf.low
         ∧ (∃ r, match_confidence ebay_name st.id st.displayName = some (Conf.high, r))
         ∧ stepBest ebay_name (some (b, bc)) st = some (st, Conf.high)) := by
  refine ⟨foldl_stepBest_keep ebay_name subs b Conf.high (Or.inl rfl),
          foldl_stepBest_keep ebay_name subs b Conf.medium (Or.inr rfl), ?_, ?_, ?_⟩
  · intro st c r hm
    unfold stepBest
    rw [hm]
  · intro st hm
    unfold stepBest
    rw [hm]
  · intro st bc hne
    unfold stepBest at hne ⊢
    cases hm : match_confidence ebay_name st.id st.displayName with
    | none => rw [hm] at hne; exact absurd rfl hne
    | some cr =>
      rw [hm] at hne
      obtain ⟨c, r⟩ := cr
      by_cases hcond : c = Conf.high ∧ bc = Conf.low
      · obtain ⟨rfl, rfl⟩ := hcond
        exact ⟨rfl, ⟨r, rfl⟩, by simp⟩
      · exact absurd (by simp [hcond]) hne

/-- C2, witness: a HIGH selection for "Laptop" survives a further scan, and a
LOW best is displaced by a HIGH candidate. -/
theorem aggregator_tiebreak_policy_witness :
    ([⟨w "electronics_laptop", w "Laptop"⟩] : List SSubtype).foldl
        (stepBest (w "Laptop")) (some (⟨w "other", w "Other"⟩, Conf.high))
      = some (⟨w "other", w "Other"⟩, Conf.high)
    ∧ (Conf.low = Conf.low
       ∧ (∃ r, match_confidence (w "Laptop") (w "electronics_laptop") (w "Laptop")
            = some (Conf.high, r))
       ∧ stepBest (w "Laptop") (some (⟨w "other", w "Other"⟩, Conf.low))
           ⟨w "electronics_laptop", w "Laptop"⟩
         = some (⟨w "electronics_laptop", w "Laptop"⟩, Conf.high)) :=
  ⟨(aggregator_tiebreak_policy (w "Laptop") [⟨w "electronics_laptop", w "Laptop"⟩]
      ⟨w "other", w "Other"⟩).1,
   (aggregator_tiebreak_policy (w "Laptop") [⟨w "electronics_laptop", w "Laptop"⟩]
      ⟨w "other", w "Other"⟩).2.2.2.2 ⟨w "electronics_laptop", w "Laptop"⟩ Conf.low
      (by decide)⟩

/-! Claim C3: duplicate alternates in the inverted synonym index. -/

/-- C3, counterexample: the alternate "screen" is listed under "monitor" and
later under "television" in the table's iteration order, but the inverted
index maps it to "monitor", the canonical entry under which it appears first
— not to the one it appears under last. -/
theorem synonym_last_write_cex :
    (SYNONYMS.filter (fun p => (w "screen") ∈ p.2)).map (fun p => p.1)
      = [w "monitor", w "television"]
    ∧ alookup REVERSE_SYNONYMS (w "screen") = some (w "monitor")
    ∧ w "monitor" ≠ w "television" := by
  refine ⟨by decide, by decide, by decide⟩

/-- C3, amended: the construction guard `if syn not in REVERSE_SYNONYMS`
makes the inverted index first-write-wins: for every alternate term, lookup
returns the canonical entry under which the alternate appears first in the
table's iteration order (the first matching pair of the flattened
(alternate, canonical) list), and `none` for terms that are not alternates. -/
theorem synonym_first_write_wins (s : Str) :
    alookup REVERSE_SYNONYMS s = alookup flatSynPairs s :=
  reverse_synonyms_lookup s

/-! Claim C5: the aggregator's outputs partition the input. -/

/-- C5, counterexample: with two input categories sharing the external id "7",
one matching and one not, the id "7" appears both in the mapping records and
in the unmapped records — so "no external id appears in both" fails for
arbitrary inputs. -/
theorem partition_dup_id_cex :
    ((map_categories_core
        [⟨some (w "7"), w "Laptop", [], none, true, none⟩,
         ⟨some (w "7"), w "qqq zzz www xxx", [], none, true, none⟩]
        [⟨w "electronics_laptop", w "Laptop"⟩]).1.map (fun m => m.ebayCategoryId)
      = [some (w "7")])
    ∧ ((map_categories_core
        [⟨some (w "7"), w "Laptop", [], none, true, none⟩,
         ⟨some (w "7"), w "qqq zzz www xxx", [], none, true, none⟩]
        [⟨w "electronics_laptop", w "Laptop"⟩]).2.map (fun u => u.ebayCategoryId)
      = [some (w "7")]) := by
  refine ⟨by decide, by decide⟩

/-- C5, amended: the two outputs partition the input exactly — the lengths
add up to the number of categories, the mapping records are exactly the
matching categories in order and the unmapped records exactly the
non-matching ones in order (so every category lands in exactly one output) —
and when the external ids of the input are pairwise distinct, no external id
appears in both outputs. -/
theorem partition_exact (cats : List FlatEntry) (subs : List SSubtype) :
    (map_categories_core cats subs).1.length + (map_categories_core cats subs).2.length
      = cats.length
    ∧ (map_categories_core cats subs).1.map (fun m => (m.ebayCategoryId, m.ebayName, m.ebayPath))
        = (cats.filter (fun c => (pickBest c.name subs).isSome)).map
            (fun c => (c.ebayCategoryId, c.name, c.path))
    ∧ (map_categories_core cats subs).2
        = (cats.filter (fun c => !(pickBest c.name subs).isSome)).map
            (fun c => ⟨c.ebayCategoryId, c.name, c.path⟩)
    ∧ ((cats.map (fun c => c.ebayCategoryId)).Nodup →
        ∀ m ∈ (map_categories_core cats subs).1,
        ∀ u ∈ (map_categories_core cats subs).2,
          m.ebayCategoryId ≠ u.ebayCategoryId) := by
  refine ⟨map_core_lengths subs cats, (map_core_char subs cats).1,
          (map_core_char subs cats).2, ?_⟩
  intro hnd m hm u hu heq
  have hm' : (m.ebayCategoryId, m.ebayName, m.ebayPath)
      ∈ (map_categories_core cats subs).1.map
          (fun m => (m.ebayCategoryId, m.ebayName, m.ebayPath)) :=
    List.mem_map_of_mem _ hm
  rw [(map_core_char subs cats).1] at hm'
  obtain ⟨c₁, hc₁mem, hc₁eq⟩ := List.mem_map.mp hm'
  have hu' := hu
  rw [(map_core_char subs cats).2] at hu'
  obtain ⟨c₂, hc₂mem, hc₂eq⟩ := List.mem_map.mp hu'
  obtain ⟨hc₁in, hp₁⟩ := List.mem_filter.mp hc₁mem
  obtain ⟨hc₂in, hp₂⟩ := List.mem_filter.mp hc₂mem
  have hid₁ : c₁.ebayCategoryId = m.ebayCategoryId := congrArg Prod.fst hc₁eq
  have hid₂ : c₂.ebayCategoryId = u.ebayCategoryId := by rw [← hc₂eq]
  have hcc : c₁ = c₂ :=
    List.inj_on_of_nodup_map hnd hc₁in hc₂in (by rw [hid₁, hid₂, heq])
  rw [hcc] at hp₁
  rw [hp₁] at hp₂
  exact absurd hp₂ (by simp)

/-- C5, witness: with distinct external ids "1" (mapped) and "2" (unmapped),
the counts add up, and the theorem's disjointness clause applies to the
concrete member records. -/
theorem partition_exact_witness :
    (map_categories_core
        [⟨some (w "1"), w "Laptop", [], none, true, none⟩,
         ⟨some (w "2"), w "qqq zzz www xxx", [], none, true, none⟩]
        [⟨w "electronics_laptop", w "Laptop"⟩]).1.length
      + (map_categories_core
        [⟨some (w "1"), w "Laptop", [], none, true, none⟩,
         ⟨some (w "2"), w "qqq zzz www xxx", [], none, true, none⟩]
        [⟨w "electronics_laptop", w "Laptop"⟩]).2.length = 2
    ∧ (⟨some (w "1"), w "Laptop", [], w "electronics_laptop", w "Laptop", Conf.high⟩
         : MappingRecord).ebayCategoryId
        ≠ (⟨some (w "2"), w "qqq zzz www xxx", []⟩ : UnmappedRecord).ebayCategoryId :=
  ⟨(partition_exact
      [⟨some (w "1"), w "Laptop", [], none, true, none⟩,
       ⟨some (w "2"), w "qqq zzz www xxx", [], none, true, none⟩]
      [⟨w "electronics_laptop", w "Laptop"⟩]).1,
   (partition_exact
      [⟨some (w "1"), w "Laptop", [], none, true, none⟩,
       ⟨some (w "2"), w "qqq zzz www xxx", [], none, true, none⟩]
      [⟨w "electronics_laptop", w "Laptop"⟩]).2.2.2 (by decide)
      ⟨some (w "1"), w "Laptop", [], w "electronics_laptop", w "Laptop", Conf.high⟩
      (by decide)
      ⟨some (w "2"), w "qqq zzz www xxx", []⟩
      (by decide)⟩

/-! Claim C7: the pipeline is a deterministic pure function of its inputs. -/

/-- C7: the flatten-then-map pipeline is a pure function of the tree and the
subtype list alone — equal inputs give equal mapped and unmapped partitions;
the embedding is total and deterministic, matching the code's freedom from
randomness and time dependence. -/
theorem pipeline_deterministic (t₁ t₂ : TreeData) (s₁ s₂ : List SSubtype)
    (ht : t₁ = t₂) (hs : s₁ = s₂) : pipeline t₁ s₁ = pipeline t₂ s₂ := by
  subst ht
  subst hs
  rfl

/-- C7, witness: two runs on one concrete tree and subtype list coincide. -/
theorem pipeline_deterministic_witness :
    pipeline ⟨none, [], [LegacyCat.mk (some (w "1")) (w "A") none []]⟩
        [⟨w "electronics_laptop", w "Laptop"⟩]
      = pipeline ⟨none, [], [LegacyCat.mk (some (w "1")) (w "A") none []]⟩
        [⟨w "electronics_laptop", w "Laptop"⟩] :=
  pipeline_deterministic
    ⟨none, [], [LegacyCat.mk (some (w "1")) (w "A") none []]⟩
    ⟨none, [], [LegacyCat.mk (some (w "1")) (w "A") none []]⟩
    [⟨w "electronics_laptop", w "Laptop"⟩] [⟨w "electronics_laptop", w "Laptop"⟩]
    rfl rfl

/-! Helper lemmas about the flattener. -/

theorem traverse_node_sentinel_eq (nm : Str) (fl : Option Bool) (lv : Option Nat)
    (cs : List RichNode) (path : List Str) (pid : Option Str) :
    traverse_node (RichNode.mk (some (w "0")) nm fl lv cs) path pid
      = traverse_forest cs [] (some (w "0")) := by
  conv_lhs => rw [traverse_node.eq_def]
  dsimp only
  rw [if_pos rfl]

theorem traverse_node_cons_eq (cid : Option Str) (nm : Str) (fl : Option Bool)
    (lv : Option Nat) (cs : List RichNode) (path : List Str) (pid : Option Str)
    (h0 : cid ≠ some (w "0")) :
    traverse_node (RichNode.mk cid nm fl lv cs) path pid
      = { ebayCategoryId := cid, name := nm,
          path := if nm ≠ [] then path ++ [nm] else path,
          parentId := pid, leafFlag := fl.getD false || cs.isEmpty,
          level := some (lv.getD (if nm ≠ [] then path ++ [nm] else path).length) }
        :: traverse_forest cs (if nm ≠ [] then path ++ [nm] else path) cid := by
  conv_lhs => rw [traverse_node.eq_def]
  dsimp only
  rw [if_neg h0]

theorem traverse_forest_cons_eq (c : RichNode) (cs : List RichNode)
    (path : List Str) (pid : Option Str) :
    traverse_forest (c :: cs) path pid
      = traverse_node c path pid ++ traverse_forest cs path pid := by
  conv_lhs => rw [traverse_forest.eq_def]

theorem traverse_old_cons_eq (cid : Option Str) (nm : Str) (pcid : Option Str)
    (subs : List LegacyCat) (path : List Str) :
    traverse_old (LegacyCat.mk cid nm pcid subs) path
      = { ebayCategoryId := cid, name := nm,
          path := if nm ≠ [] then path ++ [nm] else path,
          parentId := pcid, leafFlag := subs.isEmpty, level := none }
        :: traverse_old_forest subs (if nm ≠ [] then path ++ [nm] else path) := by
  conv_lhs => rw [traverse_old.eq_def]

mutual

theorem trav_node_inv : ∀ (n : RichNode) (path : List Str) (pid : Option Str)
    (e : FlatEntry), e ∈ traverse_node n path pid →
    e.ebayCategoryId ≠ some (w "0") ∧ (e.name ≠ [] → ∃ p, e.path = p ++ [e.name])
  | RichNode.mk cid nm fl lv cs, path, pid, e => by
    intro he
    by_cases h0 : cid = some (w "0")
    · subst h0
      rw [traverse_node_sentinel_eq nm fl lv cs path pid] at he
      exact trav_forest_inv cs [] (some (w "0")) e he
    · rw [traverse_node_cons_eq cid nm fl lv cs path pid h0] at he
      rcases List.mem_cons.mp he with rfl | he'
      · refine ⟨h0, ?_⟩
        intro hnm
        exact ⟨path, by simp only [if_pos hnm]⟩
      · exact trav_forest_inv cs (if nm ≠ [] then path ++ [nm] else path) cid e he'

theorem trav_forest_inv : ∀ (l : List RichNode) (path : List Str) (pid : Option Str)
    (e : FlatEntry), e ∈ traverse_forest l path pid →
    e.ebayCategoryId ≠ some (w "0") ∧ (e.name ≠ [] → ∃ p, e.path = p ++ [e.name])
  | [], path, pid, e => by
    intro he
    rw [show traverse_forest [] path pid = [] from rfl] at he
    exact absurd he (List.not_mem_nil e)
  | c :: cs, path, pid, e => by
    intro he
    rw [traverse_forest_cons_eq c cs path pid] at he
    rcases List.mem_append.mp he with h | h
    · exact trav_node_inv c path pid e h
    · exact trav_forest_inv cs path pid e h

end

mutual

theorem trav_node_len : ∀ (n : RichNode) (path : List Str) (pid : Option Str),
    (traverse_node n path pid).length = emittedCount n
  | RichNode.mk cid nm fl lv cs, path, pid => by
    by_cases h0 : cid = some (w "0")
    · subst h0
      rw [traverse_node_sentinel_eq nm fl lv cs path pid]
      rw [show emittedCount (RichNode.mk (some (w "0")) nm fl lv cs)
            = emittedCountF cs from by
          conv_lhs => rw [emittedCount.eq_def]
          dsimp only
          rw [if_pos rfl, Nat.zero_add]]
      exact trav_forest_len cs [] (some (w "0"))
    · rw [traverse_node_cons_eq cid nm fl lv cs path pid h0, List.length_cons]
      rw [show emittedCount (RichNode.mk cid nm fl lv cs) = 1 + emittedCountF cs from by
          conv_lhs => rw [emittedCount.eq_def]
          dsimp only
          rw [if_neg h0]]
      rw [trav_forest_len cs (if nm ≠ [] then path ++ [nm] else path) cid]
      omega

theorem trav_forest_len : ∀ (l : List RichNode) (path : List Str) (pid : Option Str),
    (traverse_forest l path pid).length = emittedCountF l
  | [], _, _ => rfl
  | c :: cs, path, pid => by
    rw [traverse_forest_cons_eq c cs path pid, List.length_append]
    rw [trav_node_len c path pid, trav_forest_len cs path pid]
    rfl

end

theorem traverse_old_forest_cons_eq (c : LegacyCat) (cs : List LegacyCat)
    (path : List Str) :
    traverse_old_forest (c :: cs) path
      = traverse_old c path ++ traverse_old_forest cs path := by
  conv_lhs => rw [traverse_old_forest.eq_def]

mutual

theorem trav_old_len : ∀ (c : LegacyCat) (path : List Str),
    (traverse_old c path).length = legacyCount c
  | LegacyCat.mk cid nm pcid subs, path => by
    rw [traverse_old_cons_eq cid nm pcid subs path, List.length_cons]
    rw [show legacyCount (LegacyCat.mk cid nm pcid subs) = 1 + legacyCountF subs from by
        conv_lhs => rw [legacyCount.eq_def]]
    rw [trav_old_forest_len subs (if nm ≠ [] then path ++ [nm] else path)]
    omega

theorem trav_old_forest_len : ∀ (l : List LegacyCat) (path : List Str),
    (traverse_old_forest l path).length = legacyCountF l
  | [], _ => rfl
  | c :: cs, path => by
    rw [traverse_old_forest_cons_eq c cs path, List.length_append]
    rw [trav_old_len c path, trav_old_forest_len cs path]
    rfl

end

/-! Claim C4: leaf determination of the rich flattener. -/

/-- C4, counterexample: a node whose explicit leaf flag is `false` but whose
child collection is empty is emitted with `leafFlag = true`, not `false` —
the explicit flag does not override the computed has-zero-children test. -/
theorem leaf_flag_cex :
    (traverse_node (RichNode.mk (some (w "5")) (w "X") (some false) none []) [] none).map
        (fun e => e.leafFlag) = [true] := by
  decide

/-- C4, amended: the emitted `isLeaf` value is the disjunction of the
explicit leaf flag (defaulting to `false` when absent) and the computed
"child collection is empty" test, for the rich traversal; the legacy
traversal uses only the computed test.  In particular an explicit `false`
flag with an empty child collection yields `isLeaf = true`. -/
theorem leaf_flag_disjunction (cid : Option Str) (nm : Str) (fl : Option Bool)
    (lv : Option Nat) (cs : List RichNode) (path : List Str) (pid : Option Str)
    (pcid : Option Str) (lsubs : List LegacyCat) (lpath : List Str)
    (h0 : cid ≠ some (w "0")) :
    ((traverse_node (RichNode.mk cid nm fl lv cs) path pid).head?.map
        (fun e => e.leafFlag)) = some (fl.getD false || cs.isEmpty)
    ∧ ((traverse_old (LegacyCat.mk cid nm pcid lsubs) lpath).head?.map
        (fun e => e.leafFlag)) = some lsubs.isEmpty := by
  constructor
  · rw [traverse_node_cons_eq cid nm fl lv cs path pid h0]
    rfl
  · rw [traverse_old_cons_eq cid nm pcid lsubs lpath]
    rfl

/-- C4, witness: the amended disjunction at the counterexample's node. -/
theorem leaf_flag_disjunction_witness :
    ((traverse_node (RichNode.mk (some (w "5")) (w "X") (some false) none []) [] none).head?.map
        (fun e => e.leafFlag)) = some ((some false).getD false || List.isEmpty ([] : List RichNode)) :=
  (leaf_flag_disjunction (some (w "5")) (w "X") (some false) none [] [] none
    none [] [] (by decide)).1

/-! Claim C6: pre-order emission, path construction, sentinel handling. -/

/-- C6, counterexample: in the legacy representation, a category with the
sentinel id "0" IS emitted — `flatten` on a legacy tree whose only category
has id "0" produces a record carrying that id, so "a node whose category id
is the sentinel is never itself emitted" fails for legacy inputs. -/
theorem flatten_sentinel_cex :
    (flatten_category_tree ⟨none, [], [LegacyCat.mk (some (w "0")) (w "Root") none []]⟩).map
        (fun e => e.ebayCategoryId) = [some (w "0")] := by
  decide

/-- C6, amended: the rich traversal emits in pre-order — a non-sentinel node
emits its own record first, with path equal to the incoming path extended by
its name exactly when the name is non-empty, followed by its children's
records in input order; a node with sentinel id "0" is not emitted and its
children restart from the empty path; every record emitted by the rich
traversal has a non-sentinel id and a path ending in its own name when that
name is non-empty.  In the legacy representation the sentinel is not special:
every category, id "0" included, is emitted (head record carries its own id),
also in pre-order with the same path rule. -/
theorem flatten_preorder_paths :
    (∀ (nm : Str) (fl : Option Bool) (lv : Option Nat) (cs : List RichNode)
       (path : List Str) (pid : Option Str),
       traverse_node (RichNode.mk (some (w "0")) nm fl lv cs) path pid
         = traverse_forest cs [] (some (w "0")))
    ∧ (∀ (cid : Option Str) (nm : Str) (fl : Option Bool) (lv : Option Nat)
         (cs : List RichNode) (path : List Str) (pid : Option Str),
         cid ≠ some (w "0") →
         traverse_node (RichNode.mk cid nm fl lv cs) path pid
           = { ebayCategoryId := cid, name := nm,
               path := if nm ≠ [] then path ++ [nm] else path,
               parentId := pid, leafFlag := fl.getD false || cs.isEmpty,
               level := some (lv.getD (if nm ≠ [] then path ++ [nm] else path).length) }
             :: traverse_forest cs (if nm ≠ [] then path ++ [nm] else path) cid)
    ∧ (∀ (c : RichNode) (cs : List RichNode) (path : List Str) (pid : Option Str),
         traverse_forest (c :: cs) path pid
           = traverse_node c path pid ++ traverse_forest cs path pid)
    ∧ (∀ (n : RichNode) (path : List Str) (pid : Option Str) (e : FlatEntry),
         e ∈ traverse_node n path pid →
         e.ebayCategoryId ≠ some (w "0") ∧ (e.name ≠ [] → ∃ p, e.path = p ++ [e.name]))
    ∧ (∀ (cid : Option Str) (nm : Str) (pcid : Option Str) (lsubs : List LegacyCat)
         (path : List Str),
         traverse_old (LegacyCat.mk cid nm pcid lsubs) path
           = { ebayCategoryId := cid, name := nm,
               path := if nm ≠ [] then path ++ [nm] else path,
               parentId := pcid, leafFlag := lsubs.isEmpty, level := none }
             :: traverse_old_forest lsubs (if nm ≠ [] then path ++ [nm] else path)) :=
  ⟨traverse_node_sentinel_eq, traverse_node_cons_eq, traverse_forest_cons_eq,
   trav_node_inv, traverse_old_cons_eq⟩

/-- C6, witness: the amended pre-order and path statements at the concrete
tree of the spec's Scenario D, and the sentinel-membership clause at one of
its records. -/
theorem flatten_preorder_paths_witness :
    traverse_node (RichNode.mk (some (w "0")) [] none none
        [RichNode.mk (some (w "1")) (w "A") none none []]) [] none
      = traverse_forest [RichNode.mk (some (w "1")) (w "A") none none []] [] (some (w "0"))
    ∧ ((⟨some (w "1"), w "A", [w "A"], some (w "0"), true, some 1⟩ : FlatEntry).ebayCategoryId
         ≠ some (w "0")
       ∧ ((⟨some (w "1"), w "A", [w "A"], some (w "0"), true, some 1⟩ : FlatEntry).name ≠ [] →
          ∃ p, (⟨some (w "1"), w "A", [w "A"], some (w "0"), true, some 1⟩ : FlatEntry).path
            = p ++ [(⟨some (w "1"), w "A", [w "A"], some (w "0"), true, some 1⟩ : FlatEntry).name])) :=
  ⟨flatten_preorder_paths.1 [] none none [RichNode.mk (some (w "1")) (w "A") none none []]
     [] none,
   flatten_preorder_paths.2.2.2.1
     (RichNode.mk (some (w "0")) [] none none [RichNode.mk (some (w "1")) (w "A") none none []])
     [] none ⟨some (w "1"), w "A", [w "A"], some (w "0"), true, some 1⟩ (by decide)⟩

/-! Claim C8: the flattener degrades gracefully and never aborts. -/

/-- C8: the flattener is a total function (it never raises), in both input
representations; in either traversal a node with a missing name is emitted
with the empty-string name and leaves the path unchanged both for its own
record and for its descendants' traversal, and a node with a missing id is
still emitted (head record carries id `none`); and the whole tree is always
processed: the rich traversal emits one record per non-sentinel node, the
legacy traversal one record per node. -/
theorem flatten_graceful (cid : Option Str) (nm : Str) (fl : Option Bool)
    (lv : Option Nat) (cs : List RichNode) (path : List Str) (pid : Option Str)
    (pcid : Option Str) (lsubs : List LegacyCat) (lpath : List Str)
    (h0 : cid ≠ some (w "0")) :
    (traverse_node (RichNode.mk cid [] fl lv cs) path pid
       = { ebayCategoryId := cid, name := [], path := path, parentId := pid,
           leafFlag := fl.getD false || cs.isEmpty, level := some (lv.getD path.length) }
         :: traverse_forest cs path cid)
    ∧ (traverse_old (LegacyCat.mk cid [] pcid lsubs) lpath
       = { ebayCategoryId := cid, name := [], path := lpath, parentId := pcid,
           leafFlag := lsubs.isEmpty, level := none }
         :: traverse_old_forest lsubs lpath)
    ∧ ((traverse_node (RichNode.mk none nm fl lv cs) path pid).head?.map
         (fun e => e.ebayCategoryId) = some none)
    ∧ ((traverse_old (LegacyCat.mk none nm pcid lsubs) lpath).head?.map
         (fun e => e.ebayCategoryId) = some none)
    ∧ (∀ (n : RichNode) (path' : List Str) (pid' : Option Str),
         (traverse_node n path' pid').length = emittedCount n)
    ∧ (∀ (l : List RichNode) (path' : List Str) (pid' : Option Str),
         (traverse_forest l path' pid').length = emittedCountF l)
    ∧ (∀ (c : LegacyCat) (path' : List Str),
         (traverse_old c path').length = legacyCount c)
    ∧ (∀ (l : List LegacyCat) (path' : List Str),
         (traverse_old_forest l path').length = legacyCountF l) := by
  refine ⟨?_, ?_, ?_, ?_, trav_node_len, trav_forest_len, trav_old_len, trav_old_forest_len⟩
  · rw [traverse_node_cons_eq cid [] fl lv cs path pid h0]
    simp only [ne_eq, not_true_eq_false, if_false]
  · rw [traverse_old_cons_eq cid [] pcid lsubs lpath]
    simp only [ne_eq, not_true_eq_false, if_false]
  · rw [traverse_node_cons_eq none nm fl lv cs path pid (by simp)]
    rfl
  · rw [traverse_old_cons_eq none nm pcid lsubs lpath]
    rfl

/-- C8, witness: graceful degradation at a concrete nameless rich node, at a
concrete nameless legacy category with a missing id, and the completeness
counts on concrete rich and legacy trees. -/
theorem flatten_graceful_witness :
    (traverse_node (RichNode.mk (some (w "3")) [] none none []) [w "P"] none
       = { ebayCategoryId := some (w "3"), name := [], path := [w "P"], parentId := none,
           leafFlag := (none : Option Bool).getD false || List.isEmpty ([] : List RichNode),
           level := some ((none : Option Nat).getD [w "P"].length) }
         :: traverse_forest [] [w "P"] (some (w "3")))
    ∧ (traverse_old (LegacyCat.mk (some (w "3")) [] none []) [w "P"]
       = { ebayCategoryId := some (w "3"), name := [], path := [w "P"], parentId := none,
           leafFlag := List.isEmpty ([] : List LegacyCat), level := none }
         :: traverse_old_forest [] [w "P"])
    ∧ ((traverse_old (LegacyCat.mk none (w "A") none []) []).head?.map
         (fun e => e.ebayCategoryId) = some none)
    ∧ (traverse_node (RichNode.mk (some (w "0")) [] none none
         [RichNode.mk none (w "A") none none []]) [] none).length
        = emittedCount (RichNode.mk (some (w "0")) [] none none
            [RichNode.mk none (w "A") none none []])
    ∧ (traverse_old (LegacyCat.mk (some (w "0")) (w "Root") none
         [LegacyCat.mk none [] none []]) []).length
        = legacyCount (LegacyCat.mk (some (w "0")) (w "Root") none
            [LegacyCat.mk none [] none []]) :=
  ⟨(flatten_graceful (some (w "3")) [] none none [] [w "P"] none none [] [w "P"]
      (by decide)).1,
   (flatten_graceful (some (w "3")) [] none none [] [w "P"] none none [] [w "P"]
      (by decide)).2.1,
   (flatten_graceful (some (w "x")) (w "A") none none [] [] none none [] []
      (by decide)).2.2.2.1,
   (flatten_graceful (some (w "x")) [] none none [] [] none none [] []
      (by decide)).2.2.2.2.1
     (RichNode.mk (some (w "0")) [] none none [RichNode.mk none (w "A") none none []])
     [] none,
   (flatten_graceful (some (w "x")) [] none none [] [] none none [] []
      (by decide)).2.2.2.2.2.2.1
     (LegacyCat.mk (some (w "0")) (w "Root") none [LegacyCat.mk none [] none []]) []⟩

/-! Claim C9: the tokenizer contract. -/

/-- C9: `tokenize` lower-cases its input and returns exactly the maximal runs
of non-separator characters (separators: whitespace, hyphen, underscore) of
the lowered string, in their original order; every returned token is
non-empty and separator-free; and an empty or whitespace-only input yields
the empty sequence. -/
theorem tokenize_contract (s : Str) :
    tokenize s = specTokens (lowerStr s)
    ∧ (∀ t ∈ tokenize s, t ≠ [] ∧ t.all (fun c => !isSep c) = true)
    ∧ (s.all isWS = true → tokenize s = []) :=
  ⟨tokenize_eq_specTokens s, tokenize_tokens_ok s, tokenize_blank s⟩

/-- C9, witness: the contract at a concrete mixed-separator input and at a
whitespace-only input. -/
theorem tokenize_contract_witness :
    tokenize (w "  ") = []
    ∧ (w "ab" ≠ [] ∧ (w "ab").all (fun c => !isSep c) = true)
    ∧ tokenize (w "Ab-c  d_e") = specTokens (lowerStr (w "Ab-c  d_e")) :=
  ⟨(tokenize_contract (w "  ")).2.2 (by decide),
   (tokenize_contract (w "Ab-c  d_e")).2.1 (w "ab") (by decide),
   (tokenize_contract (w "Ab-c  d_e")).1⟩

/-! Claim C10: scoring empty or whitespace-only external names. -/

/-- C10, counterexample: the subtype display name " " is non-empty, the
external name " " is whitespace-only, yet the scorer returns a match (the
exact rule fires because both lower-case to the same whitespace string) — so
"found=false for every subtype whose display name is non-empty" fails. -/
theorem blank_name_cex :
    match_confidence (w " ") (w "x") (w " ") = some (Conf.high, Reason.exact)
    ∧ (w " ") ≠ ([] : Str) := by
  refine ⟨by decide, by decide⟩

/-- C10, amended: an empty or whitespace-only external name tokenizes to the
empty sequence, so the direct-token, synonym, bigram and weak-overlap rules
cannot fire and the scorer returns `none` against every subtype whose display
name does not lower-case to the same string; consequently the best-candidate
scan over subtypes with non-empty display names finds nothing for an
empty-named category, and such a category is always placed in the unmapped
output (and never yields a mapping record). -/
theorem blank_name_unmatched (e i n : Str) (subs : List SSubtype)
    (cats : List FlatEntry) (c : FlatEntry) :
    (e.all isWS = true → lowerStr e ≠ lowerStr n → match_confidence e i n = none)
    ∧ ((∀ st ∈ subs, st.displayName ≠ []) → pickBest [] subs = none)
    ∧ ((∀ st ∈ subs, st.displayName ≠ []) → c ∈ cats → c.name = [] →
        (⟨c.ebayCategoryId, c.name, c.path⟩ : UnmappedRecord)
            ∈ (map_categories_core cats subs).2
        ∧ ∀ m ∈ (map_categories_core cats subs).1, m.ebayName ≠ ([] : Str)) := by
  refine ⟨?_, pickBest_nil_name subs, ?_⟩
  · intro hws hne
    exact match_confidence_no_tokens e i n (tokenize_blank e hws) hne
  · intro hsubs hc hcn
    have hpick : pickBest c.name subs = none := by
      rw [hcn]
      exact pickBest_nil_name subs hsubs
    constructor
    · rw [(map_core_char subs cats).2]
      refine List.mem_map.mpr ⟨c, ?_, rfl⟩
      exact List.mem_filter.mpr ⟨hc, by simp [hpick]⟩
    · intro m hm hname
      have hm' : (m.ebayCategoryId, m.ebayName, m.ebayPath)
          ∈ (map_categories_core cats subs).1.map
              (fun m => (m.ebayCategoryId, m.ebayName, m.ebayPath)) :=
        List.mem_map_of_mem _ hm
      rw [(map_core_char subs cats).1] at hm'
      obtain ⟨c₁, hc₁mem, hc₁eq⟩ := List.mem_map.mp hm'
      obtain ⟨hc₁in, hp₁⟩ := List.mem_filter.mp hc₁mem
      have hn₁ : c₁.name = m.ebayName := congrArg (fun p => p.2.1) hc₁eq
      rw [show pickBest c₁.name subs = none from by
            rw [hn₁, hname]; exact pickBest_nil_name subs hsubs] at hp₁
      exact absurd hp₁ (by simp)

/-- C10, witness: a whitespace-only name scores `none` against a concrete
subtype, and a concrete empty-named category lands in the unmapped output. -/
theorem blank_name_unmatched_witness :
    match_confidence (w " ") (w "electronics_laptop") (w "Laptop") = none
    ∧ (⟨some (w "9"), [], []⟩ : UnmappedRecord)
        ∈ (map_categories_core [⟨some (w "9"), [], [], none, true, none⟩]
             [⟨w "electronics_laptop", w "Laptop"⟩]).2 :=
  ⟨(blank_name_unmatched (w " ") (w "electronics_laptop") (w "Laptop") [] []
      ⟨some (w "9"), [], [], none, true, none⟩).1 (by decide) (by decide),
   ((blank_name_unmatched (w " ") (w "electronics_laptop") (w "Laptop")
      [⟨w "electronics_laptop", w "Laptop"⟩]
      [⟨some (w "9"), [], [], none, true, none⟩]
      ⟨some (w "9"), [], [], none, true, none⟩).2.2 (by decide) (by decide) (by decide)).1⟩

end Scanium
